import Mathlib

/-!
Verification development for the scSpecies cross-species latent alignment
workflow.  The repository's visible fragment (`tutorial.ipynb`) orchestrates
an external alignment engine (`preprocessing.create_mdata`,
`models.scSpecies`); the engine's implementation is not part of the visible
sources, so the data model and operations below are modelled from the
specification of that engine (encoder/decoder pairs, context and target
trainers, prototype alignment, label transfer, log-fold-change estimation,
and the multimodal data container).  Numeric state is embedded over `ℚ`
(and `ℝ` only where a logarithm is required).
-/

namespace ScSpecies

/-! ### Vectors and matrices as rational lists -/

/-- Dot product of two rational vectors (zero-padded to the shorter length). -/
def dot (u v : List ℚ) : ℚ :=
  (List.zipWith (fun a b => a * b) u v).sum

/-- Matrix–vector product: each row of `W` is dotted with `x`. -/
def matVec (W : List (List ℚ)) (x : List ℚ) : List ℚ :=
  W.map (fun row => dot row x)

/-- Componentwise vector subtraction. -/
def vecSub (u v : List ℚ) : List ℚ :=
  List.zipWith (fun a b => a - b) u v

/-- Scale a vector by a rational. -/
def vecScale (c : ℚ) (v : List ℚ) : List ℚ :=
  v.map (fun a => c * a)

/-- Outer product of two vectors, as a list of rows. -/
def outer (u v : List ℚ) : List (List ℚ) :=
  u.map (fun a => v.map (fun b => a * b))

/-- Componentwise matrix subtraction. -/
def matSub (A B : List (List ℚ)) : List (List ℚ) :=
  List.zipWith vecSub A B

/-- Scale a matrix by a rational. -/
def matScale (c : ℚ) (A : List (List ℚ)) : List (List ℚ) :=
  A.map (vecScale c)

/-- Componentwise matrix addition (truncating to the common shape). -/
def matAdd (A B : List (List ℚ)) : List (List ℚ) :=
  List.zipWith (fun r s => List.zipWith (fun a b => a + b) r s) A B

/-! ### Encoder / decoder pairs

Modelled from the spec: each species owns one encoder
(counts + batch → latent posterior mean) and one decoder
(latent → count-likelihood parameters).  `models.py` is not among the
visible sources; the networks are embedded as linear maps, which suffices
for the dimensional and frame properties claimed of them. -/

/-- An encoder: its weight matrix has one row per latent dimension. -/
structure Encoder where
  weights : List (List ℚ)
deriving DecidableEq

/-- The latent width an encoder produces: its number of weight rows. -/
def Encoder.latentDim (e : Encoder) : ℕ :=
  e.weights.length

/-- Encoding a cell's count vector yields the latent posterior mean. -/
def Encoder.encode (e : Encoder) (x : List ℚ) : List ℚ :=
  matVec e.weights x

/-- A decoder: one weight row per output gene. -/
structure Decoder where
  weights : List (List ℚ)
deriving DecidableEq

/-- Decoding a latent code yields per-gene expected expression parameters. -/
def Decoder.decode (d : Decoder) (z : List ℚ) : List ℚ :=
  matVec d.weights z

/-- Build an encoder of the requested latent width over `inDim` input genes,
with weight entries drawn from the initializer `init`. -/
def mkEncoder (latentDim inDim : ℕ) (init : ℕ → ℕ → ℚ) : Encoder :=
  ⟨(List.range latentDim).map (fun i => (List.range inDim).map (fun j => init i j))⟩

/-- Build a decoder with `outDim` gene rows over a latent width `latentDim`. -/
def mkDecoder (outDim latentDim : ℕ) (init : ℕ → ℕ → ℚ) : Decoder :=
  ⟨(List.range outDim).map (fun i => (List.range latentDim).map (fun j => init i j))⟩

/-! ### Model construction and configuration validation

Modelled from the spec: the `scSpecies` constructor receives the alignment
run's configuration (shared latent width, per-species latent widths and gene
dimensionalities, label keys, homology correspondence) and fails fast with a
descriptive condition on a configuration error, before any training step can
run. -/

/-- Configuration of one alignment run. -/
structure Config where
  sharedLatentDim : ℕ
  contextLatentDim : ℕ
  targetLatentDim : ℕ
  contextGenes : ℕ
  targetGenes : ℕ
  requiredLabelKeys : List String
  providedLabelKeys : List String
  homology : List (ℕ × ℕ)
  init : ℕ → ℕ → ℚ

/-- Descriptive configuration-error conditions raised by the constructor. -/
inductive ConfigError where
  | latentWidthMismatch (declared found : ℕ) : ConfigError
  | missingLabelKey (key : String) : ConfigError
  | emptyHomology : ConfigError
deriving DecidableEq

/-- A constructed scSpecies model: the context and target encoder/decoder
pairs of one alignment run. -/
structure Model where
  contextEnc : Encoder
  contextDec : Decoder
  targetEnc : Encoder
  targetDec : Decoder
deriving DecidableEq

/-- Modelled from the spec: the `scSpecies` constructor (in the unavailable
`models.py`).  It validates the configuration — latent widths of both
species' pairs must equal the run's shared latent width, every required label
key must be provided, the homology correspondence must be nonempty — and
only then builds the encoder/decoder pairs.  Any violation is surfaced as a
descriptive `ConfigError` before a model (hence any training) exists. -/
def mkScSpecies (cfg : Config) : Except ConfigError Model :=
  if cfg.contextLatentDim ≠ cfg.sharedLatentDim then
    .error (.latentWidthMismatch cfg.sharedLatentDim cfg.contextLatentDim)
  else if cfg.targetLatentDim ≠ cfg.sharedLatentDim then
    .error (.latentWidthMismatch cfg.sharedLatentDim cfg.targetLatentDim)
  else
    match cfg.requiredLabelKeys.find? (fun k => ! cfg.providedLabelKeys.contains k) with
    | some k => .error (.missingLabelKey k)
    | none =>
      if cfg.homology.isEmpty then
        .error .emptyHomology
      else
        .ok { contextEnc := mkEncoder cfg.sharedLatentDim cfg.contextGenes cfg.init
              contextDec := mkDecoder cfg.contextGenes cfg.sharedLatentDim cfg.init
              targetEnc := mkEncoder cfg.sharedLatentDim cfg.targetGenes cfg.init
              targetDec := mkDecoder cfg.targetGenes cfg.sharedLatentDim cfg.init }

/-! ### Context trainer

Modelled from the spec: `train_context` fits the context encoder/decoder
pair by iterated gradient steps over the dataset; with
`train_decoder_only = True` only the decoder is updated, leaving the
(possibly freshly loaded) encoder untouched.  `load_params` copies a saved
encoder's parameters into the model at construction time.  The optimizer is
embedded as exact gradient descent on a squared-error reconstruction
surrogate of the ELBO, over `ℚ`. -/

/-- Transpose of a rectangular rational matrix (rows as lists). -/
def matTranspose (A : List (List ℚ)) : List (List ℚ) :=
  (List.range ((A.headD []).length)).map (fun j => A.map (fun row => row.getD j 0))

/-- The parameter state of one species' scVI model. -/
structure ContextState where
  enc : Encoder
  dec : Decoder
deriving DecidableEq

/-- One gradient step on the context encoder for the reconstruction loss
`‖D (W x) − x‖²` summed over the pass's cells. -/
def encRecStep (η : ℚ) (cells : List (List ℚ)) (d : Decoder) (e : Encoder) : Encoder :=
  ⟨cells.foldl
    (fun W x =>
      matSub W (matScale η
        (outer (matVec (matTranspose d.weights) (vecSub (matVec d.weights (matVec W x)) x)) x)))
    e.weights⟩

/-- One gradient step on a decoder for the reconstruction loss
`‖D z − x‖²` with `z` the encoder's latent code, summed over the cells. -/
def decRecStep (η : ℚ) (cells : List (List ℚ)) (e : Encoder) (d : Decoder) : Decoder :=
  ⟨cells.foldl
    (fun D x =>
      matSub D (matScale η (outer (vecSub (matVec D (e.encode x)) x) (e.encode x))))
    d.weights⟩

/-- One training pass of the context trainer.  With `decoderOnly = true`
only the decoder moves; otherwise both components take a gradient step. -/
def trainContextStep (decoderOnly : Bool) (η : ℚ) (cells : List (List ℚ))
    (s : ContextState) : ContextState :=
  { enc := if decoderOnly then s.enc else encRecStep η cells s.dec s.enc
    dec := decRecStep η cells s.enc s.dec }

/-- `train_context` run for `n` epochs. -/
def trainContext (decoderOnly : Bool) (η : ℚ) (cells : List (List ℚ)) :
    ℕ → ContextState → ContextState
  | 0, s => s
  | n + 1, s => trainContext decoderOnly η cells n (trainContextStep decoderOnly η cells s)

/-- Modelled from the spec: `load_params` imports previously saved encoder
parameters into a model, a one-time copy at construction time. -/
def loadContextEncoder (s : ContextState) (e : Encoder) : ContextState :=
  { s with enc := e }

/-! ### Prototype set and target trainer

Modelled from the spec: after context training a set of prototype context
cells is selected; their identities and latent codes are fixed,
non-trainable anchors.  `train_target` fits the target encoder (and, unless
the decoder is frozen in transfer-only mode, the decoder) by gradient steps
on the ELBO surrogate plus the squared-Euclidean prototype-alignment
loss. -/

/-- A prototype: the identity of a selected context cell together with its
fixed latent code. -/
structure Prototype where
  cellId : ℕ
  latent : List ℚ
deriving DecidableEq

/-- Select prototypes from chosen context cells by encoding them with the
trained context encoder. -/
def selectPrototypes (chosen : List (ℕ × List ℚ)) (e : Encoder) : List Prototype :=
  chosen.map (fun c => ⟨c.1, e.encode c.2⟩)

/-- Latent code of the `i`-th prototype (empty if out of range). -/
def protoLatent (protos : List Prototype) (i : ℕ) : List ℚ :=
  (protos[i]?.map Prototype.latent).getD []

/-- The state of one target-trainer run: target encoder and decoder
parameters plus the fixed prototype set. -/
structure TargetState where
  enc : Encoder
  dec : Decoder
  prototypes : List Prototype
deriving DecidableEq

/-- One gradient step on the target encoder for the prototype-alignment
loss `‖W x − p‖²`, summed over the matched (cell, prototype-index) pairs. -/
def encAlignStep (η : ℚ) (cells : List (List ℚ × ℕ)) (protos : List Prototype)
    (e : Encoder) : Encoder :=
  ⟨cells.foldl
    (fun W c =>
      matSub W (matScale η (outer (vecSub (matVec W c.1) (protoLatent protos c.2)) c.1)))
    e.weights⟩

/-- The target encoder's trajectory under `n` alignment passes. -/
def encAlignIter (η : ℚ) (cells : List (List ℚ × ℕ)) (protos : List Prototype) :
    ℕ → Encoder → Encoder
  | 0, e => e
  | n + 1, e => encAlignIter η cells protos n (encAlignStep η cells protos e)

/-- One training pass of the target trainer.  The prototype set is consumed
read-only; with `freezeDecoder = true` (transfer-only mode) the decoder is
left untouched. -/
def trainTargetStep (freezeDecoder : Bool) (η : ℚ) (cells : List (List ℚ × ℕ))
    (s : TargetState) : TargetState :=
  { enc := encAlignStep η cells s.prototypes s.enc
    dec := if freezeDecoder then s.dec else decRecStep η (cells.map Prod.fst) s.enc s.dec
    prototypes := s.prototypes }

/-- `train_target` run for `n` epochs. -/
def trainTarget (freezeDecoder : Bool) (η : ℚ) (cells : List (List ℚ × ℕ)) :
    ℕ → TargetState → TargetState
  | 0, s => s
  | n + 1, s => trainTarget freezeDecoder η cells n (trainTargetStep freezeDecoder η cells s)

/-! ### Evaluation layer: label transfer

Modelled from the spec: `eval_label_transfer` predicts each target cell's
label as the label of its nearest context cell in the shared latent space
and reports the fraction of correct predictions, separately per label key
(coarse or fine). -/

/-- Squared Euclidean distance between two latent codes. -/
def sqDist (u v : List ℚ) : ℚ :=
  ((vecSub u v).map (fun a => a * a)).sum

/-- A context cell with its latent code and its labels under the fine and
coarse label keys (labels encoded as naturals). -/
structure CtxCell where
  latent : List ℚ
  fine : ℕ
  coarse : ℕ
deriving DecidableEq

/-- A target cell with its latent code and its ground-truth labels. -/
structure TgtCell where
  latent : List ℚ
  fine : ℕ
  coarse : ℕ
deriving DecidableEq

/-- One comparison step of the nearest-neighbor scan: keep the closer of
the best-so-far and the next context cell (the earlier one on ties). -/
def nearStep (z : List ℚ) (best : Option CtxCell) (c : CtxCell) : Option CtxCell :=
  match best with
  | none => some c
  | some b => if sqDist c.latent z < sqDist b.latent z then some c else some b

/-- The nearest context cell to a latent code (first minimum in dataset
order on ties), `none` on an empty context dataset. -/
def nearestCtxCell (ctx : List CtxCell) (z : List ℚ) : Option CtxCell :=
  ctx.foldl (nearStep z) none

/-- Label-transfer accuracy for one label key: the fraction of target cells
whose nearest context cell carries the cell's ground-truth label under that
key. -/
def transferAccuracy (ctx : List CtxCell) (tgts : List TgtCell)
    (key : CtxCell → ℕ) (tkey : TgtCell → ℕ) : ℚ :=
  (tgts.countP (fun t => decide ((nearestCtxCell ctx t.latent).map key = some (tkey t))) : ℚ)
    / tgts.length

/-! ### Evaluation layer: log-fold change

Modelled from the spec: `compute_logfold_change` decodes expected per-gene
expression for a matched cell-type group in each species and reports, per
gene, the log2 ratio of the context species' expected expression to the
target species'. -/

/-- Expected expression of gene `g` for a group: the mean over the group's
latent codes of the decoded per-gene value. -/
def meanDecoded (d : Decoder) (zs : List (List ℚ)) (g : ℕ) : ℚ :=
  (zs.map (fun z => (d.decode z).getD g 0)).sum / zs.length

/-- Per-gene log2-fold change of the first species' expected expression over
the second species', for one matched cell-type group pair. -/
noncomputable def computeLogfoldChange (dA dB : Decoder) (zsA zsB : List (List ℚ))
    (g : ℕ) : ℝ :=
  Real.logb 2 ((meanDecoded dA zsA g : ℝ) / (meanDecoded dB zsB g : ℝ))

/-! ### Training-pass halting on non-finite loss

Modelled from the spec: a training pass evaluates the loss at the current
parameters before each update; a non-finite (NaN/Inf) loss halts the pass
and surfaces the failure together with the last valid checkpoint, instead
of continuing with corrupted parameters. -/

/-- A numeric value as produced by the loss computation: either a finite
rational or a non-finite result (NaN/Inf). -/
inductive NumVal where
  | fin (q : ℚ) : NumVal
  | nonfin : NumVal
deriving DecidableEq

/-- Whether a loss value is finite. -/
def NumVal.isFinite : NumVal → Bool
  | fin _ => true
  | nonfin => false

/-- Pure iteration of the parameter update. -/
def iterUpd {P : Type} (upd : P → P) : ℕ → P → P
  | 0, p => p
  | k + 1, p => iterUpd upd k (upd p)

/-- A training pass of at most `n` update steps.  Each step first evaluates
the loss at the current (checkpointed) parameters: a finite loss lets the
update proceed, a non-finite loss halts the pass, returning the failure with
the last valid checkpoint as `Except.error`. -/
def runPass {P : Type} (upd : P → P) (loss : P → NumVal) : ℕ → P → Except P P
  | 0, p => .ok p
  | n + 1, p => if (loss p).isFinite then runPass upd loss n (upd p) else .error p

/-! ### Seeded context training

Modelled from the spec: `train_context` reshuffles the cell order at every
epoch using the run's seeded generator, so that the whole loss trajectory is
a function of the seed and the data alone. -/

/-- A linear congruential generator step on a 31-bit state. -/
def lcg (s : ℕ) : ℕ :=
  (s * 1103515245 + 12345) % 2 ^ 31

/-- Deterministic reshuffle of one epoch's cell order from a generator
draw: rotate the dataset by the draw modulo its size. -/
def shufflePass (r : ℕ) (cells : List (List ℚ)) : List (List ℚ) :=
  cells.drop (r % cells.length) ++ cells.take (r % cells.length)

/-- Reconstruction (surrogate ELBO) loss of a state over one epoch's
cells. -/
def recLoss (s : ContextState) (cells : List (List ℚ)) : ℚ :=
  (cells.map (fun x => sqDist (matVec s.dec.weights (s.enc.encode x)) x)).sum

/-- Seeded `train_context` run: from a generator state and an epoch count,
reshuffle the cells each epoch with the generator, record that epoch's loss,
and take a training step; returns the loss trajectory and final state. -/
def trainContextSeeded (decoderOnly : Bool) (η : ℚ) (cells : List (List ℚ)) :
    ℕ → ℕ → ContextState → List ℚ × ContextState
  | _, 0, s => ([], s)
  | r, n + 1, s =>
    let r' := lcg r
    let pass := shufflePass r' cells
    let rest := trainContextSeeded decoderOnly η cells r' n (trainContextStep decoderOnly η pass s)
    (recLoss s pass :: rest.1, rest.2)

/-! ### The multimodal container

Modelled from the spec: `create_mdata` builds the multimodal container with
the context dataset as a modality; `setup_target_adata` registers one more
target modality — translating gene names to the context convention, pairing
homologous genes and running the data-level nearest-neighbor search against
the context modality — without touching the modalities already present. -/

/-- An annotated input dataset: count matrix, batch labels and gene
vocabulary (gene names encoded as naturals after convention translation). -/
structure AData where
  counts : List (List ℚ)
  batch : List ℕ
  genes : List ℕ
deriving DecidableEq

/-- A registered modality: the dataset plus the preprocessing outputs
(homologous-gene correspondence to the context and the data-level
nearest-neighbor mapping into the context dataset). -/
structure Modality where
  data : AData
  homologyWithContext : List (ℕ × ℕ)
  nnToContext : List ℕ
deriving DecidableEq

/-- The multimodal container: named modalities in registration order. -/
structure MuData where
  modalities : List (String × Modality)
deriving DecidableEq

/-- Look up a modality by its dataset name. -/
def MuData.lookup (md : MuData) (k : String) : Option Modality :=
  md.modalities.lookup k

/-- Build the container from the context dataset. -/
def createMData (contextName : String) (a : AData) : MuData :=
  ⟨[(contextName, ⟨a, [], []⟩)]⟩

/-- Homologous-gene correspondence: pairs of context/target gene indices
whose (translated) gene names agree. -/
def genePairs (ctxGenes tgtGenes : List ℕ) : List (ℕ × ℕ) :=
  ctxGenes.enum.filterMap
    (fun ci => (tgtGenes.findIdx? (fun g => g == ci.2)).map (fun j => (ci.1, j)))

/-- Restrict a count vector to the listed gene columns. -/
def restrictCols (idxs : List ℕ) (x : List ℚ) : List ℚ :=
  idxs.map (fun i => x.getD i 0)

/-- Index of the first minimum of a list of distances (0 if empty). -/
def argminIdx (l : List ℚ) : ℕ :=
  ((l.enum.foldl
      (fun best p =>
        match best with
        | none => some p
        | some b => if p.2 < b.2 then some p else some b)
      none).map Prod.fst).getD 0

/-- Data-level nearest-neighbor search: each target cell is mapped to the
context cell closest on the homologous-gene columns. -/
def nnSearch (hom : List (ℕ × ℕ)) (ctx tgt : AData) : List ℕ :=
  tgt.counts.map
    (fun x =>
      argminIdx (ctx.counts.map
        (fun y => sqDist (restrictCols (hom.map Prod.snd) x)
          (restrictCols (hom.map Prod.fst) y))))

/-- Preprocess one target dataset against the container's context
modality. -/
def processTarget (md : MuData) (contextName : String) (a : AData) : Modality :=
  match md.lookup contextName with
  | none => ⟨a, [], []⟩
  | some ctx =>
    let hom := genePairs ctx.data.genes a.genes
    ⟨a, hom, nnSearch hom ctx.data a⟩

/-- Register one more target modality: the container gains the processed
dataset under `name`, appended after all existing modalities. -/
def setupTargetAdata (md : MuData) (contextName name : String) (a : AData) : MuData :=
  ⟨md.modalities ++ [(name, processTarget md contextName a)]⟩

/-! ### Witness instances -/

/-- Witness configuration for the claims' concrete instances: shared latent
width 2, context with 3 genes, target with 5 genes, one homologous pair. -/
def wCfg : Config :=
  { sharedLatentDim := 2
    contextLatentDim := 2
    targetLatentDim := 2
    contextGenes := 3
    targetGenes := 5
    requiredLabelKeys := ["batch"]
    providedLabelKeys := ["batch", "cell_type_fine"]
    homology := [(0, 0)]
    init := fun i j => (i : ℚ) + j }

/-- The model constructed from the witness configuration. -/
def wModel : Model :=
  { contextEnc := mkEncoder 2 3 wCfg.init
    contextDec := mkDecoder 3 2 wCfg.init
    targetEnc := mkEncoder 2 5 wCfg.init
    targetDec := mkDecoder 5 2 wCfg.init }

/-- A misconfigured run: the context pair requests latent width 3 while the
run declares shared latent width 2. -/
def badCfg : Config :=
  { wCfg with contextLatentDim := 3 }

/-- A one-dimensional target-trainer state used by witnesses: scalar
encoder weight 0, one prototype with latent code `[1]`. -/
def wTargetState : TargetState :=
  { enc := ⟨[[0]]⟩
    dec := ⟨[[1]]⟩
    prototypes := [⟨5, [1]⟩] }

/-- Witness context dataset for label transfer: two labelled cells in a
one-dimensional latent space. -/
def wCtxCells : List CtxCell :=
  [⟨[0], 0, 0⟩, ⟨[10], 2, 1⟩]

/-- Witness target dataset for label transfer. -/
def wTgtCells : List TgtCell :=
  [⟨[1], 0, 0⟩, ⟨[9], 3, 1⟩]

/-- Witness refinement map from fine to coarse label codes. -/
def wRefine (n : ℕ) : ℕ :=
  n / 2

/-- Witness parameter update for the halting property. -/
def wUpd (p : ℕ) : ℕ :=
  p + 1

/-- Witness loss: finite below 2, non-finite from 2 on. -/
def wLoss (p : ℕ) : NumVal :=
  if p < 2 then .fin 0 else .nonfin

/-- Witness context dataset for the multimodal container. -/
def wCtxAData : AData :=
  { counts := [[1, 0], [0, 1]], batch := [0, 0], genes := [100, 101] }

/-- Witness target dataset for the multimodal container. -/
def wTgtAData : AData :=
  { counts := [[2, 0], [0, 3]], batch := [0, 0], genes := [101, 102] }

/-- Witness container holding only the context modality. -/
def wMu : MuData :=
  createMData "mouse" wCtxAData

/-! ### Helper lemmas -/

theorem matVec_length (W : List (List ℚ)) (x : List ℚ) :
    (matVec W x).length = W.length := by
  simp [matVec]

theorem mkEncoder_latentDim (L d : ℕ) (init : ℕ → ℕ → ℚ) :
    (mkEncoder L d init).latentDim = L := by
  simp [mkEncoder, Encoder.latentDim]

theorem encode_length (e : Encoder) (x : List ℚ) :
    (e.encode x).length = e.latentDim := by
  simp [Encoder.encode, Encoder.latentDim, matVec_length]

theorem mkScSpecies_ok_elim (cfg : Config) (m : Model)
    (h : mkScSpecies cfg = .ok m) :
    m.contextEnc = mkEncoder cfg.sharedLatentDim cfg.contextGenes cfg.init ∧
    m.targetEnc = mkEncoder cfg.sharedLatentDim cfg.targetGenes cfg.init := by
  unfold mkScSpecies at h
  split at h
  · exact absurd h (by simp)
  · split at h
    · exact absurd h (by simp)
    · split at h
      · exact absurd h (by simp)
      · split at h
        · exact absurd h (by simp)
        · injection h with h
          subst h
          exact ⟨rfl, rfl⟩

theorem mkScSpecies_ok_valid (cfg : Config) (m : Model)
    (h : mkScSpecies cfg = .ok m) :
    cfg.contextLatentDim = cfg.sharedLatentDim ∧
    cfg.targetLatentDim = cfg.sharedLatentDim ∧
    (∀ k ∈ cfg.requiredLabelKeys, cfg.providedLabelKeys.contains k) ∧
    cfg.homology ≠ [] := by
  unfold mkScSpecies at h
  split at h
  · exact absurd h (by simp)
  · split at h
    · exact absurd h (by simp)
    · rename_i h1 h2
      split at h
      · exact absurd h (by simp)
      · rename_i hfind
        split at h
        · exact absurd h (by simp)
        · rename_i hhom
          refine ⟨not_not.mp h1, not_not.mp h2, ?_, ?_⟩
          · intro k hk
            have := List.find?_eq_none.mp hfind k hk
            simpa using this
          · simpa [List.isEmpty_iff] using hhom

theorem trainTarget_prototypes_eq (f : Bool) (η : ℚ) (cells : List (List ℚ × ℕ)) :
    ∀ (n : ℕ) (s : TargetState), (trainTarget f η cells n s).prototypes = s.prototypes := by
  intro n
  induction n with
  | zero => intro s; rfl
  | succ n ih =>
    intro s
    rw [trainTarget, ih]
    rfl

theorem trainTarget_frozen_dec_eq (η : ℚ) (cells : List (List ℚ × ℕ)) :
    ∀ (n : ℕ) (s : TargetState), (trainTarget true η cells n s).dec = s.dec := by
  intro n
  induction n with
  | zero => intro s; rfl
  | succ n ih =>
    intro s
    rw [trainTarget, ih]
    rfl

theorem trainTarget_frozen_enc_eq (η : ℚ) (cells : List (List ℚ × ℕ)) :
    ∀ (n : ℕ) (s : TargetState),
      (trainTarget true η cells n s).enc = encAlignIter η cells s.prototypes n s.enc := by
  intro n
  induction n with
  | zero => intro s; rfl
  | succ n ih =>
    intro s
    rw [trainTarget, ih, encAlignIter]
    rfl

theorem trainContext_decOnly_enc_eq (η : ℚ) (cells : List (List ℚ)) :
    ∀ (n : ℕ) (s : ContextState), (trainContext true η cells n s).enc = s.enc := by
  intro n
  induction n with
  | zero => intro s; rfl
  | succ n ih =>
    intro s
    rw [trainContext, ih]
    rfl

theorem nearStep_foldl_mem (z : List ℚ) :
    ∀ (l : List CtxCell) (acc : Option CtxCell) (c : CtxCell),
      l.foldl (nearStep z) acc = some c → acc = some c ∨ c ∈ l := by
  intro l
  induction l with
  | nil => intro acc c h; exact Or.inl h
  | cons a t ih =>
    intro acc c h
    rw [List.foldl_cons] at h
    rcases ih (nearStep z acc a) c h with h' | h'
    · cases acc with
      | none =>
        rw [nearStep] at h'
        injection h' with h'
        subst h'
        exact Or.inr (List.mem_cons_self a t)
      | some b =>
        rw [nearStep] at h'
        split at h'
        · injection h' with h'
          subst h'
          exact Or.inr (List.mem_cons_self a t)
        · exact Or.inl h'
    · exact Or.inr (List.mem_cons_of_mem a h')

theorem nearestCtxCell_mem (ctx : List CtxCell) (z : List ℚ) (c : CtxCell)
    (h : nearestCtxCell ctx z = some c) : c ∈ ctx := by
  rcases nearStep_foldl_mem z ctx none c h with h' | h'
  · exact absurd h' (by simp)
  · exact h'

theorem lookup_append_of_some {α β : Type} [BEq α] (l₁ l₂ : List (α × β)) (k : α) (v : β)
    (h : l₁.lookup k = some v) : (l₁ ++ l₂).lookup k = some v := by
  induction l₁ with
  | nil => simp [List.lookup] at h
  | cons hd tl ih =>
    obtain ⟨a, b⟩ := hd
    rw [List.cons_append]
    cases hka : (k == a) with
    | true =>
      simp only [List.lookup, hka] at h ⊢
      exact h
    | false =>
      simp only [List.lookup, hka] at h ⊢
      exact ih h

theorem lookup_append_fresh {α β : Type} [BEq α] [LawfulBEq α] (l : List (α × β)) (k : α)
    (v : β) (h : l.lookup k = none) : (l ++ [(k, v)]).lookup k = some v := by
  induction l with
  | nil => simp [List.lookup]
  | cons hd tl ih =>
    obtain ⟨a, b⟩ := hd
    rw [List.cons_append]
    cases hka : (k == a) with
    | true =>
      simp only [List.lookup, hka] at h
      exact absurd h (by simp)
    | false =>
      simp only [List.lookup, hka] at h ⊢
      exact ih h

end ScSpecies

namespace ScSpecies

/-- **C1.** For every cell of every species dataset in one alignment run, the
latent code produced by that species' encoder has length equal to the run's
configured shared latent width, independently of the cell's native
gene-count dimensionality: both encoders of a successfully constructed model
map any count vector (of any length, covering species preprocessed to 2000,
2500 or 3000 genes) to a latent code of length `cfg.sharedLatentDim`. -/
theorem latent_dim_matches_shared_width (cfg : Config) (m : Model)
    (h : mkScSpecies cfg = .ok m) (xContext xTarget : List ℚ) :
    (m.contextEnc.encode xContext).length = cfg.sharedLatentDim ∧
    (m.targetEnc.encode xTarget).length = cfg.sharedLatentDim := by
  obtain ⟨hc, ht⟩ := mkScSpecies_ok_elim cfg m h
  constructor
  · rw [hc, encode_length, mkEncoder_latentDim]
  · rw [ht, encode_length, mkEncoder_latentDim]

theorem mkScSpecies_wCfg : mkScSpecies wCfg = .ok wModel := by
  rfl

/-- Witness for C1: on the concrete run `wCfg` (context 3 genes, target 5
genes), concrete cells of either species encode to latent codes of the shared
width 2. -/
theorem latent_dim_matches_shared_width_witness :
    (wModel.contextEnc.encode [1, 2, 3]).length = wCfg.sharedLatentDim ∧
    (wModel.targetEnc.encode [1, 2, 3, 4, 5]).length = wCfg.sharedLatentDim :=
  latent_dim_matches_shared_width wCfg wModel mkScSpecies_wCfg [1, 2, 3] [1, 2, 3, 4, 5]

/-- **C8.** Configuration errors — a latent width of either species' pair
mismatching the run's shared latent width, a missing required label key, or
an empty homology correspondence — make the `scSpecies` constructor fail
with a descriptive `ConfigError`; it never returns a model, so no training
step (which requires a constructed model) can run on a misconfigured run. -/
theorem config_errors_fail_fast (cfg : Config)
    (h : cfg.contextLatentDim ≠ cfg.sharedLatentDim ∨
         cfg.targetLatentDim ≠ cfg.sharedLatentDim ∨
         (∃ k ∈ cfg.requiredLabelKeys, ¬ cfg.providedLabelKeys.contains k) ∨
         cfg.homology = []) :
    (∃ e : ConfigError, mkScSpecies cfg = .error e) ∧
    ∀ m : Model, mkScSpecies cfg ≠ .ok m := by
  cases hE : mkScSpecies cfg with
  | error e => exact ⟨⟨e, rfl⟩, fun m hm => absurd hm (by simp)⟩
  | ok m =>
    obtain ⟨h1, h2, h3, h4⟩ := mkScSpecies_ok_valid cfg m hE
    rcases h with h | h | ⟨k, hk, hnc⟩ | h
    · exact absurd h1 h
    · exact absurd h2 h
    · exact absurd (h3 k hk) (by simpa using hnc)
    · exact absurd h h4

/-- Witness for C8: the concrete misconfigured run `badCfg` fails at
construction and yields no model. -/
theorem config_errors_fail_fast_witness :
    (∃ e : ConfigError, mkScSpecies badCfg = .error e) ∧
    ∀ m : Model, mkScSpecies badCfg ≠ .ok m :=
  config_errors_fail_fast badCfg (Or.inl (by decide))

/-- **C2.** For one full target-trainer run, the prototype set selected
after context training is fixed: starting from any state whose prototypes
were selected (via `selectPrototypes`) from the trained context encoder, at
every training iteration `i` of the run the state still carries exactly the
same context cells with the same latent codes as alignment anchors — the
training step never writes to them, so they are not trainable. -/
theorem prototype_set_fixed_during_target_run (f : Bool) (η : ℚ)
    (cells : List (List ℚ × ℕ)) (chosen : List (ℕ × List ℚ)) (eCtx : Encoder)
    (enc : Encoder) (dec : Decoder) (i : ℕ) :
    (trainTarget f η cells i ⟨enc, dec, selectPrototypes chosen eCtx⟩).prototypes =
      selectPrototypes chosen eCtx :=
  trainTarget_prototypes_eq f η cells i ⟨enc, dec, selectPrototypes chosen eCtx⟩

/-- **C4.** In transfer-only (decoder-frozen) mode, a full `train_target`
run leaves the target decoder's parameters identical to their value before
the run, while the target encoder's parameters change (whenever the
alignment gradient actually moves the encoder over the run, as in the
witness below). -/
theorem transfer_only_freezes_decoder_updates_encoder (η : ℚ)
    (cells : List (List ℚ × ℕ)) (s : TargetState) (n : ℕ)
    (h : encAlignIter η cells s.prototypes n s.enc ≠ s.enc) :
    (trainTarget true η cells n s).dec = s.dec ∧
    (trainTarget true η cells n s).enc ≠ s.enc := by
  refine ⟨trainTarget_frozen_dec_eq η cells n s, ?_⟩
  rw [trainTarget_frozen_enc_eq η cells n s]
  exact h

/-- Witness for C4: a concrete one-epoch frozen run on `wTargetState` with
one matched cell; the decoder is untouched and the encoder weight moves
from `0` to `1/2`. -/
theorem transfer_only_freezes_decoder_updates_encoder_witness :
    (trainTarget true (1/2) [([1], 0)] 1 wTargetState).dec = wTargetState.dec ∧
    (trainTarget true (1/2) [([1], 0)] 1 wTargetState).enc ≠ wTargetState.enc :=
  transfer_only_freezes_decoder_updates_encoder (1/2) [([1], 0)] wTargetState 1 (by
    norm_num [encAlignIter, encAlignStep, matSub, matScale, vecScale, outer, vecSub, matVec,
      dot, protoLatent, wTargetState])

/-- **C5.** In decoder-only mode, a full `train_context` run updates only
the decoder: the context encoder's parameters — including parameters just
imported with `load_params` — are exactly the same after the run as before
it, for every epoch count, pass data and learning rate. -/
theorem decoder_only_run_preserves_loaded_encoder (η : ℚ) (cells : List (List ℚ))
    (s : ContextState) (loaded : Encoder) (n : ℕ) :
    (trainContext true η cells n (loadContextEncoder s loaded)).enc = loaded :=
  trainContext_decOnly_enc_eq η cells n (loadContextEncoder s loaded)

/-- **C3.** The log-fold-change computation is antisymmetric: for every
gene and every matched cell-type group pair, computing the log2-fold change
with the context and target species' roles (decoders and latent-code
groups) swapped yields the negation of the value computed with the original
roles. -/
theorem logfold_change_antisymmetric (dC dT : Decoder) (zsC zsT : List (List ℚ)) (g : ℕ) :
    computeLogfoldChange dT dC zsT zsC g = -computeLogfoldChange dC dT zsC zsT g := by
  unfold computeLogfoldChange
  rw [← inv_div ((meanDecoded dC zsC g : ℝ)) ((meanDecoded dT zsT g : ℝ)), Real.logb_inv]

/-- **C6.** When a dataset's fine cell-type labels refine its coarse labels
(the coarse label of every context and target cell is the image of its fine
label under one map `r`), the label-transfer accuracy reported for the
coarse label key is at least the accuracy reported for the fine label key:
the same nearest context cell provides both predictions, and a correct fine
prediction forces a correct coarse prediction. -/
theorem coarse_accuracy_ge_fine_accuracy (ctx : List CtxCell) (tgts : List TgtCell)
    (r : ℕ → ℕ) (hc : ∀ c ∈ ctx, c.coarse = r c.fine)
    (ht : ∀ t ∈ tgts, t.coarse = r t.fine) :
    transferAccuracy ctx tgts CtxCell.fine TgtCell.fine ≤
      transferAccuracy ctx tgts CtxCell.coarse TgtCell.coarse := by
  have hcount :
      tgts.countP (fun t => decide ((nearestCtxCell ctx t.latent).map CtxCell.fine = some t.fine)) ≤
      tgts.countP (fun t => decide ((nearestCtxCell ctx t.latent).map CtxCell.coarse = some t.coarse)) := by
    apply List.countP_mono_left
    intro t htm hfine
    rw [decide_eq_true_iff] at hfine ⊢
    obtain ⟨c, hcEq, hcf⟩ := Option.map_eq_some'.mp hfine
    have hmem : c ∈ ctx := nearestCtxCell_mem ctx t.latent c hcEq
    rw [hcEq, Option.map_some', Option.some_inj, hc c hmem, hcf, ht t htm]
  unfold transferAccuracy
  exact div_le_div_of_nonneg_right (by exact_mod_cast hcount) (Nat.cast_nonneg _)

/-- Witness for C6: on the concrete labelled datasets `wCtxCells` and
`wTgtCells`, whose coarse labels are the image of the fine labels under
`wRefine`, coarse label-transfer accuracy is at least fine accuracy. -/
theorem coarse_accuracy_ge_fine_accuracy_witness :
    transferAccuracy wCtxCells wTgtCells CtxCell.fine TgtCell.fine ≤
      transferAccuracy wCtxCells wTgtCells CtxCell.coarse TgtCell.coarse :=
  coarse_accuracy_ge_fine_accuracy wCtxCells wTgtCells wRefine
    (by decide) (by decide)

/-- **C7.** If during a training pass the loss evaluation first becomes
non-finite at step `k` (all earlier steps' losses being finite), the pass
halts right there: it returns `Except.error` carrying the parameters
produced by the `k` valid steps — the last finite checkpoint — so the
failure is surfaced and training never continues past corrupted
parameters. -/
theorem nonfinite_loss_halts_with_last_checkpoint {P : Type} (upd : P → P)
    (loss : P → NumVal) (k : ℕ) :
    ∀ (n : ℕ) (p : P), k < n →
      (∀ j < k, (loss (iterUpd upd j p)).isFinite = true) →
      (loss (iterUpd upd k p)).isFinite = false →
      runPass upd loss n p = .error (iterUpd upd k p) := by
  induction k with
  | zero =>
    intro n p hk hfin hbad
    cases n with
    | zero => exact absurd hk (lt_irrefl 0)
    | succ m =>
      rw [iterUpd] at hbad ⊢
      rw [runPass, hbad]
      simp
  | succ k ih =>
    intro n p hk hfin hbad
    cases n with
    | zero => exact absurd hk (Nat.not_lt_zero _)
    | succ m =>
      have h0 : (loss p).isFinite = true := by
        have h0' := hfin 0 (Nat.succ_pos k)
        rw [iterUpd] at h0'
        exact h0'
      rw [runPass, h0]
      simp only [if_true]
      have hstep : ∀ (j : ℕ), iterUpd upd j (upd p) = iterUpd upd (j + 1) p :=
        fun j => rfl
      have hgoal := ih m (upd p) (Nat.lt_of_succ_lt_succ hk)
        (fun j hj => by rw [hstep]; exact hfin (j + 1) (Nat.succ_lt_succ hj))
        (by rw [hstep]; exact hbad)
      rw [hgoal]
      rfl

/-- Witness for C7: with the update `wUpd` and loss `wLoss` (finite for the
first two states, non-finite at the third), a five-step pass from 0 halts
with the checkpoint reached after the two valid steps. -/
theorem nonfinite_loss_halts_with_last_checkpoint_witness :
    runPass wUpd wLoss 5 0 = .error (iterUpd wUpd 2 0) :=
  nonfinite_loss_halts_with_last_checkpoint wUpd wLoss 2 5 0 (by decide)
    (by decide) (by decide)

/-- **C9.** Two context-trainer runs from an identical seed on identical
data and an identical initial state produce identical epoch-wise loss
trajectories — in particular, every pair of corresponding trajectory
entries lies within any nonnegative numerical tolerance — even though each
epoch's cell order is reshuffled by the seeded generator. -/
theorem seeded_training_deterministic (decoderOnly : Bool) (η : ℚ)
    (cells : List (List ℚ)) (seed₁ seed₂ n : ℕ) (s : ContextState) (tol : ℚ) (i : ℕ)
    (hseed : seed₁ = seed₂) (htol : 0 ≤ tol) :
    |(trainContextSeeded decoderOnly η cells seed₁ n s).1.getD i 0 -
      (trainContextSeeded decoderOnly η cells seed₂ n s).1.getD i 0| ≤ tol := by
  subst hseed
  simpa using htol

/-- Witness for C9: two three-epoch runs from seed 42 on a concrete
one-cell dataset agree at trajectory position 0 within tolerance 0. -/
theorem seeded_training_deterministic_witness :
    |(trainContextSeeded false 1 [[1]] 42 3 ⟨⟨[[0]]⟩, ⟨[[1]]⟩⟩).1.getD 0 0 -
      (trainContextSeeded false 1 [[1]] 42 3 ⟨⟨[[0]]⟩, ⟨[[1]]⟩⟩).1.getD 0 0| ≤ 0 :=
  seeded_training_deterministic false 1 [[1]] 42 42 3 ⟨⟨[[0]]⟩, ⟨[[1]]⟩⟩ 0 0 rfl le_rfl

/-- **C10.** Registering an additional target species via
`setup_target_adata` under a fresh name adds that one processed modality to
the multimodal container while every modality already registered — the
context modality and any previously registered target — is still found
unchanged under its name, so several target species can be aligned against
one unchanged context dataset from the same container. -/
theorem setup_target_adds_modality_frame (md : MuData) (contextName name : String)
    (a : AData) (hfresh : md.lookup name = none) :
    (setupTargetAdata md contextName name a).lookup name =
      some (processTarget md contextName a) ∧
    ∀ (k : String) (v : Modality), md.lookup k = some v →
      (setupTargetAdata md contextName name a).lookup k = some v := by
  constructor
  · exact lookup_append_fresh md.modalities name (processTarget md contextName a) hfresh
  · intro k v h
    exact lookup_append_of_some md.modalities [(name, processTarget md contextName a)] k v h

/-- Witness for C10: adding a "human" target modality to the concrete
container `wMu` (context modality "mouse") registers it and leaves the
context modality unchanged. -/
theorem setup_target_adds_modality_frame_witness :
    (setupTargetAdata wMu "mouse" "human" wTgtAData).lookup "human" =
      some (processTarget wMu "mouse" wTgtAData) ∧
    ∀ (k : String) (v : Modality), wMu.lookup k = some v →
      (setupTargetAdata wMu "mouse" "human" wTgtAData).lookup k = some v :=
  setup_target_adds_modality_frame wMu "mouse" "human" wTgtAData (by decide)

end ScSpecies
